import Mathlib

/-!
Shallow embedding of `sched/irq/irq_dispatch.c` (NuttX interrupt dispatch
trampoline) and verification of its specification.

The embedding models the build-time configuration flags, the vector table,
the IRQ map, the per-CPU running-task array, and the dispatcher itself.
Each call to the dispatcher returns the new kernel state together with a
trace of observable effects (slot reads/writes, the entropy tap, the call
through the vector, the running-task write), so that ordering and framing
properties can be stated about a single dispatch.
-/

set_option linter.unusedVariables false
set_option linter.unnecessarySeqFocus false

namespace IrqDispatch

/-- Value of a C `xcpt_t` function-pointer field: the NULL pointer, the
`irq_unexpected_isr` sentinel, or some user handler identified by an
abstract address. -/
inductive Xcpt where
  | null
  | unexpected
  | user (id : Nat)
  deriving DecidableEq, Repr

/-- Build-time configuration: the preprocessor symbols that `irq_dispatch.c`
branches on. -/
structure Config where
  /-- `NR_IRQS` -/
  nrIrqs : Nat
  /-- `CONFIG_ARCH_NUSER_INTERRUPTS` -/
  nuserInterrupts : Nat
  /-- `CONFIG_ARCH_MINIMAL_VECTORTABLE` -/
  minimalVectortable : Bool
  /-- `CONFIG_SCHED_IRQMONITOR` -/
  irqmonitor : Bool
  /-- `CONFIG_HAVE_LONG_LONG` -/
  haveLongLong : Bool
  /-- `CONFIG_SCHED_TICKLESS` -/
  tickless : Bool
  /-- `CONFIG_SCHED_CRITMONITOR` -/
  critmonitor : Bool
  /-- `CONFIG_SCHED_IRQMONITOR_GETTIME` -/
  irqmonitorGettime : Bool
  /-- `CONFIG_CRYPTO_RANDOM_POOL_COLLECT_IRQ_RANDOMNESS` -/
  collectIrqRandomness : Bool
  deriving DecidableEq, Repr

/-- `HAVE_PLATFORM_GETTIME`, derived in the source as: monitoring enabled and
(not tickless, or critmonitor, or the dedicated gettime option). -/
def Config.havePlatformGettime (cfg : Config) : Bool :=
  cfg.irqmonitor && (!cfg.tickless || cfg.critmonitor || cfg.irqmonitorGettime)

/-- A C `struct timespec`. -/
structure Timespec where
  tv_sec : Int
  tv_nsec : Int
  deriving DecidableEq, Repr

/-- Modelled from the spec: one entry of `g_irqvector` (`struct irq_info_s`,
declared in `irq/irq.h`, which is not part of this repository slice). Per
spec section 3, `count` is a single 64-bit counter or the two 32-bit words
`(lscount, mscount)`, and `time` holds the worst-case observed handler
duration in nanoseconds. -/
structure IrqSlot where
  handler : Xcpt
  arg : Nat
  count : Nat
  lscount : Nat
  mscount : Nat
  time : Int
  deriving DecidableEq, Repr

/-- Kernel state touched by the dispatcher. Arrays are modelled as total
functions on indices, which mirrors the fact that the C code indexes them
without any bounds check. -/
structure KState where
  /-- `g_irqmap`, meaningful on indices below `NR_IRQS`. -/
  g_irqmap : Nat → Nat
  /-- `g_irqvector`, meaningful on indices below `CONFIG_ARCH_NUSER_INTERRUPTS`
  (or `NR_IRQS` without the minimal vector table). -/
  g_irqvector : Nat → IrqSlot
  /-- `g_running_tasks`, indexed by CPU id; values are abstract task
  references. -/
  g_running_tasks : Nat → Nat

/-- Per-dispatch environment: the values the external collaborators
(`up_critmon_gettime`, `up_critmon_convert`, `clock_systimespec`,
`this_cpu`, `this_task`) produce during this one call. -/
structure Env where
  critmonStart : Nat
  critmonEnd : Nat
  convert : Nat → Timespec
  sysStart : Timespec
  sysEnd : Timespec
  thisCpu : Nat
  /-- Value of `this_task()` as observed after the handler has returned. -/
  thisTask : Nat

/-- Observable effects of one dispatch, in program order. -/
inductive Ev where
  | readMap (irq : Nat)
  | readHandler (ndx : Nat)
  | readArg (ndx : Nat)
  | writeCount (ndx : Nat)
  | readTime (ndx : Nat)
  | writeTime (ndx : Nat)
  | entropy (irq : Int)
  | call (vector : Xcpt) (irq : Int) (context : Nat) (arg : Nat)
  | writeRunningTask (cpu : Nat) (task : Nat)
  deriving DecidableEq, Repr

def Ev.isCall : Ev → Bool
  | .call _ _ _ _ => true
  | _ => false

def Ev.isCountWrite : Ev → Bool
  | .writeCount _ => true
  | _ => false

def Ev.isEntropy : Ev → Bool
  | .entropy _ => true
  | _ => false

def Ev.isTimeAccess : Ev → Bool
  | .readTime _ => true
  | .writeTime _ => true
  | _ => false

/-- Pointwise update of one table entry. -/
def updSlot (v : Nat → IrqSlot) (i : Nat) (s : IrqSlot) : Nat → IrqSlot :=
  fun j => if j = i then s else v j

/-- The C cast `(unsigned)irq` (32-bit unsigned int). -/
def uirqOf (irq : Int) : Nat := (irq % (2 : Int) ^ 32).toNat

/-- The guard `NR_IRQS > 0 && (unsigned)irq < NR_IRQS`. -/
def inRange (cfg : Config) (irq : Int) : Prop :=
  0 < cfg.nrIrqs ∧ uirqOf irq < cfg.nrIrqs

instance (cfg : Config) (irq : Int) : Decidable (inRange cfg irq) :=
  inferInstanceAs (Decidable (_ ∧ _))

/-- The `INCR_COUNT(ndx)` macro: with monitoring, either `count++` on the
64-bit counter, or `++lscount` with carry into `mscount`; without monitoring
it expands to nothing. Returns the updated table and the effect trace. -/
def INCR_COUNT (cfg : Config) (v : Nat → IrqSlot) (ndx : Nat) :
    (Nat → IrqSlot) × List Ev :=
  if cfg.irqmonitor then
    if cfg.haveLongLong then
      (updSlot v ndx { v ndx with count := ((v ndx).count + 1) % 2 ^ 64 },
       [Ev.writeCount ndx])
    else
      if ((v ndx).lscount + 1) % 2 ^ 32 = 0 then
        (updSlot v ndx { v ndx with lscount := ((v ndx).lscount + 1) % 2 ^ 32,
                                    mscount := ((v ndx).mscount + 1) % 2 ^ 32 },
         [Ev.writeCount ndx])
      else
        (updSlot v ndx { v ndx with lscount := ((v ndx).lscount + 1) % 2 ^ 32 },
         [Ev.writeCount ndx])
  else
    (v, [])

/-- Wrap-agnostic 32-bit subtraction `end - start` on unsigned ints. -/
def u32sub (a b : Nat) : Nat := (a % 2 ^ 32 + 2 ^ 32 - b % 2 ^ 32) % 2 ^ 32

/-- Modelled from the spec: `clock_timespec_subtract` (defined outside this
repository slice) subtracts two timespecs with ordered `(sec, nsec)`
borrow arithmetic. -/
def clock_timespec_subtract (te ts : Timespec) : Timespec :=
  if te.tv_nsec < ts.tv_nsec then
    ⟨te.tv_sec - ts.tv_sec - 1, te.tv_nsec + 1000000000 - ts.tv_nsec⟩
  else
    ⟨te.tv_sec - ts.tv_sec, te.tv_nsec - ts.tv_nsec⟩

/-- The `delta` timespec computed by `CALL_VECTOR` around the handler call:
either `up_critmon_convert` applied to the wrap-agnostic difference of two
`up_critmon_gettime` readings, or the difference of two `clock_systimespec`
readings. -/
def measuredDelta (cfg : Config) (env : Env) : Timespec :=
  if cfg.havePlatformGettime then
    env.convert (u32sub env.critmonEnd env.critmonStart)
  else
    clock_timespec_subtract env.sysEnd env.sysStart

/-- The `CALL_VECTOR(ndx, vector, irq, context, arg)` macro: with monitoring
it times the call `vector(irq, context, arg)` and then performs
`if (delta.tv_nsec > g_irqvector[ndx].time) g_irqvector[ndx].time = delta.tv_nsec`;
without monitoring it is a bare call. -/
def CALL_VECTOR (cfg : Config) (env : Env) (v : Nat → IrqSlot) (ndx : Nat)
    (vector : Xcpt) (irq : Int) (context arg : Nat) :
    (Nat → IrqSlot) × List Ev :=
  if cfg.irqmonitor then
    if (measuredDelta cfg env).tv_nsec > (v ndx).time then
      (updSlot v ndx { v ndx with time := (measuredDelta cfg env).tv_nsec },
       [Ev.call vector irq context arg, Ev.readTime ndx, Ev.writeTime ndx])
    else
      (v, [Ev.call vector irq context arg, Ev.readTime ndx])
  else
    (v, [Ev.call vector irq context arg])

/-- Intermediate result of lines 176-207 of `irq_dispatch.c`: the chosen
vector and argument, the index `ndx` left in scope, the vector table after
`INCR_COUNT`, and the effects so far. -/
structure Resolved where
  vector : Xcpt
  arg : Nat
  ndx : Nat
  vectors : Nat → IrqSlot
  tr : List Ev

/-- Lines 176-207 of `irq_dispatch`: initialize
`vector = irq_unexpected_isr`, `arg = NULL`, `ndx = irq`; when the IRQ is in
range, resolve `ndx` (through `g_irqmap` with the minimal vector table),
fetch the registered handler and argument when non-NULL, and run
`INCR_COUNT`. -/
def resolvePhase (cfg : Config) (st : KState) (irq : Int) : Resolved :=
  if inRange cfg irq then
    if cfg.minimalVectortable then
      if st.g_irqmap (uirqOf irq) < cfg.nuserInterrupts then
        if (st.g_irqvector (st.g_irqmap (uirqOf irq))).handler ≠ Xcpt.null then
          ⟨(st.g_irqvector (st.g_irqmap (uirqOf irq))).handler,
           (st.g_irqvector (st.g_irqmap (uirqOf irq))).arg,
           st.g_irqmap (uirqOf irq),
           (INCR_COUNT cfg st.g_irqvector (st.g_irqmap (uirqOf irq))).1,
           [Ev.readMap (uirqOf irq), Ev.readHandler (st.g_irqmap (uirqOf irq)),
            Ev.readArg (st.g_irqmap (uirqOf irq))] ++
             (INCR_COUNT cfg st.g_irqvector (st.g_irqmap (uirqOf irq))).2⟩
        else
          ⟨Xcpt.unexpected, 0, st.g_irqmap (uirqOf irq),
           (INCR_COUNT cfg st.g_irqvector (st.g_irqmap (uirqOf irq))).1,
           [Ev.readMap (uirqOf irq), Ev.readHandler (st.g_irqmap (uirqOf irq))] ++
             (INCR_COUNT cfg st.g_irqvector (st.g_irqmap (uirqOf irq))).2⟩
      else
        ⟨Xcpt.unexpected, 0, st.g_irqmap (uirqOf irq), st.g_irqvector,
         [Ev.readMap (uirqOf irq)]⟩
    else
      if (st.g_irqvector (uirqOf irq)).handler ≠ Xcpt.null then
        ⟨(st.g_irqvector (uirqOf irq)).handler,
         (st.g_irqvector (uirqOf irq)).arg,
         uirqOf irq,
         (INCR_COUNT cfg st.g_irqvector (uirqOf irq)).1,
         [Ev.readHandler (uirqOf irq), Ev.readArg (uirqOf irq)] ++
           (INCR_COUNT cfg st.g_irqvector (uirqOf irq)).2⟩
      else
        ⟨Xcpt.unexpected, 0, uirqOf irq,
         (INCR_COUNT cfg st.g_irqvector (uirqOf irq)).1,
         [Ev.readHandler (uirqOf irq)] ++
           (INCR_COUNT cfg st.g_irqvector (uirqOf irq)).2⟩
  else
    ⟨Xcpt.unexpected, 0, uirqOf irq, st.g_irqvector, []⟩

/-- `irq_dispatch(irq, context)`: resolve the vector, optionally tap the
entropy pool with the raw IRQ number, dispatch through `CALL_VECTOR`, and
record the running task `g_running_tasks[this_cpu()] = this_task()`. -/
def irq_dispatch (cfg : Config) (env : Env) (st : KState) (irq : Int)
    (context : Nat) : KState × List Ev :=
  ({ g_irqmap := st.g_irqmap,
     g_irqvector := (CALL_VECTOR cfg env (resolvePhase cfg st irq).vectors
       (resolvePhase cfg st irq).ndx (resolvePhase cfg st irq).vector irq context
       (resolvePhase cfg st irq).arg).1,
     g_running_tasks := fun c =>
       if c = env.thisCpu then env.thisTask else st.g_running_tasks c },
   (resolvePhase cfg st irq).tr ++
     (if cfg.collectIrqRandomness then [Ev.entropy irq] else []) ++
     (CALL_VECTOR cfg env (resolvePhase cfg st irq).vectors
       (resolvePhase cfg st irq).ndx (resolvePhase cfg st irq).vector irq context
       (resolvePhase cfg st irq).arg).2 ++
     [Ev.writeRunningTask env.thisCpu env.thisTask])

/-- The table index that reaches `CALL_VECTOR` for a given IRQ. -/
def dispatchNdx (cfg : Config) (st : KState) (irq : Int) : Nat :=
  (resolvePhase cfg st irq).ndx

/-- The dispatch "resolves and reaches the counter update": the IRQ is in
range and, with the minimal vector table, its map entry is assigned. -/
def reachesCount (cfg : Config) (st : KState) (irq : Int) : Prop :=
  inRange cfg irq ∧
    (cfg.minimalVectortable = true →
      st.g_irqmap (uirqOf irq) < cfg.nuserInterrupts)

/-- Representation invariant of the counter fields of a slot: the 64-bit
counter and the two 32-bit words stay within their machine widths. -/
def SlotRep (s : IrqSlot) : Prop :=
  s.count < 2 ^ 64 ∧ s.lscount < 2 ^ 32 ∧ s.mscount < 2 ^ 32

/-- Logical 64-bit invocation count of a slot, in whichever representation
the configuration selects. -/
def logicalCount (cfg : Config) (s : IrqSlot) : Nat :=
  if cfg.haveLongLong then s.count else s.mscount * 2 ^ 32 + s.lscount

/-- Iterated dispatch of the same IRQ under a list of per-call
environments. -/
def dispatchSeq (cfg : Config) (envs : List Env) (st : KState) (irq : Int)
    (ctx : Nat) : KState :=
  envs.foldl (fun s e => (irq_dispatch cfg e s irq ctx).1) st

/-- The three sentinel situations: IRQ out of range, map entry unassigned in
compressed mode, or a NULL handler in the resolved slot. -/
def sentinelCase (cfg : Config) (st : KState) (irq : Int) : Prop :=
  ¬ inRange cfg irq ∨
    (inRange cfg irq ∧ cfg.minimalVectortable = true ∧
      ¬ st.g_irqmap (uirqOf irq) < cfg.nuserInterrupts) ∨
    (reachesCount cfg st irq ∧
      (st.g_irqvector (dispatchNdx cfg st irq)).handler = Xcpt.null)



instance (s : IrqSlot) : Decidable (SlotRep s) := by
  unfold SlotRep; infer_instance

instance (cfg : Config) (st : KState) (irq : Int) :
    Decidable (reachesCount cfg st irq) := by
  unfold reachesCount; infer_instance

instance (cfg : Config) (st : KState) (irq : Int) :
    Decidable (sentinelCase cfg st irq) := by
  unfold sentinelCase; infer_instance

/-- An empty vector slot (NULL handler, zero counters). -/
def slotNull : IrqSlot := ⟨Xcpt.null, 0, 0, 0, 0, 0⟩

/-- Exemplar configuration: direct vector table, monitoring, wide counters,
entropy collection, platform clock. -/
def cfgW : Config := ⟨16, 16, false, true, true, false, false, false, true⟩

/-- Exemplar configuration with two-word counters and no entropy. -/
def cfgW2 : Config := ⟨16, 16, false, true, false, false, false, false, false⟩

/-- Exemplar configuration: direct table, monitoring, no entropy. -/
def cfgOut : Config := ⟨16, 16, false, true, true, false, false, false, false⟩

/-- Exemplar configuration: minimal vector table of 8 user slots,
monitoring. -/
def cfgMin : Config := ⟨16, 8, true, true, true, false, false, false, false⟩

/-- Exemplar environment: tick readings 100 and 350, one tick = one
nanosecond. -/
def envW : Env := ⟨100, 350, fun e => ⟨0, (e : Int)⟩, ⟨0, 0⟩, ⟨0, 0⟩, 0, 7⟩

/-- Exemplar environment with a measured delta of 100 ticks. -/
def envW100 : Env := ⟨0, 100, fun e => ⟨0, (e : Int)⟩, ⟨0, 0⟩, ⟨0, 0⟩, 0, 7⟩

/-- Exemplar state: a user handler with argument 42 registered at index 5,
identity map, every other slot empty. -/
def stW : KState :=
  ⟨fun i => i,
   fun n => if n = 5 then ⟨Xcpt.user 1, 42, 0, 0, 0, 0⟩ else slotNull,
   fun _ => 0⟩

/-- Exemplar state for the two-word counter: slot 5 has an all-ones
`lscount`. -/
def stW2 : KState :=
  ⟨fun i => i,
   fun n => if n = 5 then ⟨Xcpt.user 1, 42, 0, 2 ^ 32 - 1, 0, 0⟩ else slotNull,
   fun _ => 0⟩

/-- Exemplar state for the minimal vector table: IRQ 7 is mapped to slot 2,
every other IRQ is unassigned (map entry 8 = table size). -/
def stMin : KState :=
  ⟨fun i => if i = 7 then 2 else 8, fun _ => slotNull, fun _ => 0⟩

end IrqDispatch

namespace IrqDispatch

theorem INCR_COUNT_tr (cfg : Config) (v : Nat → IrqSlot) (ndx : Nat) :
    (INCR_COUNT cfg v ndx).2 = if cfg.irqmonitor then [Ev.writeCount ndx] else [] := by
  unfold INCR_COUNT
  split
  · split
    · rfl
    · split <;> rfl
  · rfl

theorem INCR_COUNT_handler (cfg : Config) (v : Nat → IrqSlot) (ndx j : Nat) :
    ((INCR_COUNT cfg v ndx).1 j).handler = (v j).handler := by
  unfold INCR_COUNT updSlot
  split
  · split
    · dsimp only; split <;> simp_all
    · split <;> (dsimp only; split <;> simp_all)
  · rfl

theorem INCR_COUNT_arg (cfg : Config) (v : Nat → IrqSlot) (ndx j : Nat) :
    ((INCR_COUNT cfg v ndx).1 j).arg = (v j).arg := by
  unfold INCR_COUNT updSlot
  split
  · split
    · dsimp only; split <;> simp_all
    · split <;> (dsimp only; split <;> simp_all)
  · rfl

theorem INCR_COUNT_time (cfg : Config) (v : Nat → IrqSlot) (ndx j : Nat) :
    ((INCR_COUNT cfg v ndx).1 j).time = (v j).time := by
  unfold INCR_COUNT updSlot
  split
  · split
    · dsimp only; split <;> simp_all
    · split <;> (dsimp only; split <;> simp_all)
  · rfl

end IrqDispatch

namespace IrqDispatch

theorem INCR_COUNT_logical (cfg : Config) (v : Nat → IrqSlot) (ndx : Nat)
    (hm : cfg.irqmonitor = true) (hrep : SlotRep (v ndx)) :
    logicalCount cfg ((INCR_COUNT cfg v ndx).1 ndx) =
      (logicalCount cfg (v ndx) + 1) % 2 ^ 64 ∧
    SlotRep ((INCR_COUNT cfg v ndx).1 ndx) := by
  obtain ⟨hc, hls, hms⟩ := hrep
  by_cases hll : cfg.haveLongLong = true
  · refine ⟨?_, ?_, ?_, ?_⟩ <;>
      simp only [INCR_COUNT, updSlot, logicalCount, SlotRep, hm, hll, if_true,
        if_pos rfl] <;> omega
  · rw [Bool.not_eq_true] at hll
    by_cases hwrap : ((v ndx).lscount + 1) % 2 ^ 32 = 0
    · refine ⟨?_, ?_, ?_, ?_⟩ <;>
        simp only [INCR_COUNT, updSlot, logicalCount, SlotRep, hm, hll, if_true,
          Bool.false_eq_true, if_false, if_pos hwrap, if_pos rfl] <;> omega
    · refine ⟨?_, ?_, ?_, ?_⟩ <;>
        simp only [INCR_COUNT, updSlot, logicalCount, SlotRep, hm, hll, if_true,
          Bool.false_eq_true, if_false, if_neg hwrap, if_pos rfl] <;> omega

theorem INCR_COUNT_counts_other (cfg : Config) (v : Nat → IrqSlot) (ndx j : Nat)
    (hj : j ≠ ndx) : (INCR_COUNT cfg v ndx).1 j = v j := by
  unfold INCR_COUNT updSlot
  split
  · split
    · dsimp only; rw [if_neg hj]
    · split <;> (dsimp only; rw [if_neg hj])
  · rfl

theorem CALL_VECTOR_counts (cfg : Config) (env : Env) (v : Nat → IrqSlot)
    (ndx : Nat) (vec : Xcpt) (irq : Int) (context arg : Nat) (j : Nat) :
    ((CALL_VECTOR cfg env v ndx vec irq context arg).1 j).count = (v j).count ∧
    ((CALL_VECTOR cfg env v ndx vec irq context arg).1 j).lscount = (v j).lscount ∧
    ((CALL_VECTOR cfg env v ndx vec irq context arg).1 j).mscount = (v j).mscount ∧
    ((CALL_VECTOR cfg env v ndx vec irq context arg).1 j).handler = (v j).handler ∧
    ((CALL_VECTOR cfg env v ndx vec irq context arg).1 j).arg = (v j).arg := by
  unfold CALL_VECTOR updSlot
  split
  · split
    · refine ⟨?_, ?_, ?_, ?_, ?_⟩ <;> (dsimp only; split <;> simp_all)
    · exact ⟨rfl, rfl, rfl, rfl, rfl⟩
  · exact ⟨rfl, rfl, rfl, rfl, rfl⟩

theorem CALL_VECTOR_time_ndx (cfg : Config) (env : Env) (v : Nat → IrqSlot)
    (ndx : Nat) (vec : Xcpt) (irq : Int) (context arg : Nat)
    (hm : cfg.irqmonitor = true) :
    ((CALL_VECTOR cfg env v ndx vec irq context arg).1 ndx).time =
      max (v ndx).time (measuredDelta cfg env).tv_nsec := by
  unfold CALL_VECTOR updSlot
  rw [hm]
  simp only [if_true]
  split
  · next h =>
      simp only [if_pos rfl]
      exact (max_eq_right (le_of_lt h)).symm
  · next h =>
      exact (max_eq_left (not_lt.mp h)).symm

theorem CALL_VECTOR_time_mono (cfg : Config) (env : Env) (v : Nat → IrqSlot)
    (ndx : Nat) (vec : Xcpt) (irq : Int) (context arg : Nat) (j : Nat) :
    (v j).time ≤ ((CALL_VECTOR cfg env v ndx vec irq context arg).1 j).time := by
  unfold CALL_VECTOR updSlot
  split
  · split
    · next h =>
        dsimp only
        split
        · next hj => subst hj; exact le_of_lt h
        · exact le_refl _
    · exact le_refl _
  · exact le_refl _

theorem CALL_VECTOR_tr (cfg : Config) (env : Env) (v : Nat → IrqSlot)
    (ndx : Nat) (vec : Xcpt) (irq : Int) (context arg : Nat) :
    (CALL_VECTOR cfg env v ndx vec irq context arg).2 =
      Ev.call vec irq context arg ::
        (if cfg.irqmonitor then
          (if (measuredDelta cfg env).tv_nsec > (v ndx).time then
            [Ev.readTime ndx, Ev.writeTime ndx] else [Ev.readTime ndx])
         else []) := by
  unfold CALL_VECTOR
  split
  · next hmon => split <;> simp_all
  · next hmon => simp_all

end IrqDispatch

namespace IrqDispatch

/-- When the IRQ is in range, `ndx` is the map entry (minimal vector table)
or the unsigned IRQ itself; out of range it stays the unsigned IRQ. -/
theorem dispatchNdx_eq (cfg : Config) (st : KState) (irq : Int) :
    dispatchNdx cfg st irq =
      if inRange cfg irq ∧ cfg.minimalVectortable = true then
        st.g_irqmap (uirqOf irq)
      else uirqOf irq := by
  by_cases hin : inRange cfg irq
  · by_cases hmin : cfg.minimalVectortable = true
    · rw [if_pos (show inRange cfg irq ∧ cfg.minimalVectortable = true from
        ⟨hin, hmin⟩)]
      unfold dispatchNdx resolvePhase
      rw [if_pos hin, if_pos hmin]
      split
      · split <;> rfl
      · rfl
    · rw [if_neg (show ¬ (inRange cfg irq ∧ cfg.minimalVectortable = true) from
        fun h => hmin h.2)]
      unfold dispatchNdx resolvePhase
      rw [if_pos hin, if_neg hmin]
      split <;> rfl
  · rw [if_neg (show ¬ (inRange cfg irq ∧ cfg.minimalVectortable = true) from
      fun h => hin h.1)]
    unfold dispatchNdx resolvePhase
    rw [if_neg hin]

/-- Out-of-range IRQ: the resolve phase leaves everything at its initial
value (sentinel vector, NULL argument, untouched table, empty trace). -/
theorem resolvePhase_out_of_range (cfg : Config) (st : KState) (irq : Int)
    (hin : ¬ inRange cfg irq) :
    resolvePhase cfg st irq =
      ⟨Xcpt.unexpected, 0, uirqOf irq, st.g_irqvector, []⟩ := by
  unfold resolvePhase
  rw [if_neg hin]

/-- Minimal vector table with an unassigned map entry: sentinel vector, NULL
argument, untouched table, only the map read in the trace. -/
theorem resolvePhase_unmapped (cfg : Config) (st : KState) (irq : Int)
    (hin : inRange cfg irq) (hmin : cfg.minimalVectortable = true)
    (hmap : ¬ st.g_irqmap (uirqOf irq) < cfg.nuserInterrupts) :
    resolvePhase cfg st irq =
      ⟨Xcpt.unexpected, 0, st.g_irqmap (uirqOf irq), st.g_irqvector,
       [Ev.readMap (uirqOf irq)]⟩ := by
  unfold resolvePhase
  rw [if_pos hin, if_pos hmin, if_neg hmap]

/-- In range and reaching the counter update with a registered handler: the
slot's handler and argument are selected and `INCR_COUNT` runs on `ndx`. -/
theorem resolvePhase_handler (cfg : Config) (st : KState) (irq : Int)
    (hr : reachesCount cfg st irq)
    (hh : (st.g_irqvector (dispatchNdx cfg st irq)).handler ≠ Xcpt.null) :
    (resolvePhase cfg st irq).vector =
      (st.g_irqvector (dispatchNdx cfg st irq)).handler ∧
    (resolvePhase cfg st irq).arg =
      (st.g_irqvector (dispatchNdx cfg st irq)).arg ∧
    (resolvePhase cfg st irq).vectors =
      (INCR_COUNT cfg st.g_irqvector (dispatchNdx cfg st irq)).1 := by
  obtain ⟨hin, hres⟩ := hr
  by_cases hmin : cfg.minimalVectortable = true
  · have hndx : dispatchNdx cfg st irq = st.g_irqmap (uirqOf irq) := by
      rw [dispatchNdx_eq,
        if_pos (show inRange cfg irq ∧ cfg.minimalVectortable = true from
          ⟨hin, hmin⟩)]
    rw [hndx] at hh ⊢
    unfold resolvePhase
    rw [if_pos hin, if_pos hmin, if_pos (hres hmin), if_pos hh]
    exact ⟨rfl, rfl, rfl⟩
  · have hndx : dispatchNdx cfg st irq = uirqOf irq := by
      rw [dispatchNdx_eq,
        if_neg (show ¬ (inRange cfg irq ∧ cfg.minimalVectortable = true) from
          fun h => hmin h.2)]
    rw [hndx] at hh ⊢
    unfold resolvePhase
    rw [if_pos hin, if_neg hmin, if_pos hh]
    exact ⟨rfl, rfl, rfl⟩

/-- In range and reaching the counter update with a NULL handler: the
sentinel is selected with a NULL argument and `INCR_COUNT` still runs. -/
theorem resolvePhase_null_handler (cfg : Config) (st : KState) (irq : Int)
    (hr : reachesCount cfg st irq)
    (hh : (st.g_irqvector (dispatchNdx cfg st irq)).handler = Xcpt.null) :
    (resolvePhase cfg st irq).vector = Xcpt.unexpected ∧
    (resolvePhase cfg st irq).arg = 0 ∧
    (resolvePhase cfg st irq).vectors =
      (INCR_COUNT cfg st.g_irqvector (dispatchNdx cfg st irq)).1 := by
  obtain ⟨hin, hres⟩ := hr
  by_cases hmin : cfg.minimalVectortable = true
  · have hndx : dispatchNdx cfg st irq = st.g_irqmap (uirqOf irq) := by
      rw [dispatchNdx_eq,
        if_pos (show inRange cfg irq ∧ cfg.minimalVectortable = true from
          ⟨hin, hmin⟩)]
    rw [hndx] at hh ⊢
    unfold resolvePhase
    rw [if_pos hin, if_pos hmin, if_pos (hres hmin), if_neg (fun h => h hh)]
    exact ⟨rfl, rfl, rfl⟩
  · have hndx : dispatchNdx cfg st irq = uirqOf irq := by
      rw [dispatchNdx_eq,
        if_neg (show ¬ (inRange cfg irq ∧ cfg.minimalVectortable = true) from
          fun h => hmin h.2)]
    rw [hndx] at hh ⊢
    unfold resolvePhase
    rw [if_pos hin, if_neg hmin, if_neg (fun h => h hh)]
    exact ⟨rfl, rfl, rfl⟩

/-- The resolve-phase trace in the reaching cases: some table/map reads
followed by the `INCR_COUNT` trace. -/
theorem resolvePhase_tr_reaches (cfg : Config) (st : KState) (irq : Int)
    (hr : reachesCount cfg st irq) :
    ∃ reads : List Ev,
      (resolvePhase cfg st irq).tr =
        reads ++ (INCR_COUNT cfg st.g_irqvector (dispatchNdx cfg st irq)).2 ∧
      ∀ e ∈ reads, e.isCall = false ∧ e.isEntropy = false ∧
        e.isCountWrite = false ∧ e.isTimeAccess = false := by
  obtain ⟨hin, hres⟩ := hr
  by_cases hmin : cfg.minimalVectortable = true
  · have hndx : dispatchNdx cfg st irq = st.g_irqmap (uirqOf irq) := by
      rw [dispatchNdx_eq,
        if_pos (show inRange cfg irq ∧ cfg.minimalVectortable = true from
          ⟨hin, hmin⟩)]
    rw [hndx]
    unfold resolvePhase
    rw [if_pos hin, if_pos hmin, if_pos (hres hmin)]
    split
    · exact ⟨_, rfl, by intro e he; fin_cases he <;> exact ⟨rfl, rfl, rfl, rfl⟩⟩
    · exact ⟨_, rfl, by intro e he; fin_cases he <;> exact ⟨rfl, rfl, rfl, rfl⟩⟩
  · have hndx : dispatchNdx cfg st irq = uirqOf irq := by
      rw [dispatchNdx_eq,
        if_neg (show ¬ (inRange cfg irq ∧ cfg.minimalVectortable = true) from
          fun h => hmin h.2)]
    rw [hndx]
    unfold resolvePhase
    rw [if_pos hin, if_neg hmin]
    split
    · exact ⟨_, rfl, by intro e he; fin_cases he <;> exact ⟨rfl, rfl, rfl, rfl⟩⟩
    · exact ⟨_, rfl, by intro e he; fin_cases he <;> exact ⟨rfl, rfl, rfl, rfl⟩⟩

/-- Every event of the resolve-phase trace is a table/map access: never a
call, an entropy tap, or a time access. -/
theorem resolvePhase_tr_events (cfg : Config) (st : KState) (irq : Int) :
    ∀ e ∈ (resolvePhase cfg st irq).tr,
      e.isCall = false ∧ e.isEntropy = false ∧ e.isTimeAccess = false := by
  have hincr : ∀ v ndx, ∀ e ∈ (INCR_COUNT cfg v ndx).2,
      e.isCall = false ∧ e.isEntropy = false ∧ e.isTimeAccess = false := by
    intro v ndx e he
    rw [INCR_COUNT_tr] at he
    split at he
    · fin_cases he; exact ⟨rfl, rfl, rfl⟩
    · cases he
  unfold resolvePhase
  split
  · split
    · split
      · split <;>
          (intro e he
           rw [List.mem_append] at he
           rcases he with he | he
           · fin_cases he <;> exact ⟨rfl, rfl, rfl⟩
           · exact hincr _ _ e he)
      · intro e he; fin_cases he; exact ⟨rfl, rfl, rfl⟩
    · split <;>
        (intro e he
         rw [List.mem_append] at he
         rcases he with he | he
         · fin_cases he <;> exact ⟨rfl, rfl, rfl⟩
         · exact hincr _ _ e he)
  · intro e he; cases he

/-- The resolve phase leaves the handler, argument and `time` field of every
slot unchanged (it writes only counter fields via `INCR_COUNT`). -/
theorem resolvePhase_vectors_fields (cfg : Config) (st : KState) (irq : Int)
    (j : Nat) :
    ((resolvePhase cfg st irq).vectors j).handler = (st.g_irqvector j).handler ∧
    ((resolvePhase cfg st irq).vectors j).arg = (st.g_irqvector j).arg ∧
    ((resolvePhase cfg st irq).vectors j).time = (st.g_irqvector j).time := by
  unfold resolvePhase
  split
  · split
    · split
      · split <;>
          exact ⟨INCR_COUNT_handler cfg _ _ j, INCR_COUNT_arg cfg _ _ j,
            INCR_COUNT_time cfg _ _ j⟩
      · exact ⟨rfl, rfl, rfl⟩
    · split <;>
        exact ⟨INCR_COUNT_handler cfg _ _ j, INCR_COUNT_arg cfg _ _ j,
          INCR_COUNT_time cfg _ _ j⟩
  · exact ⟨rfl, rfl, rfl⟩

end IrqDispatch

namespace IrqDispatch

/-- Dispatch never writes the IRQ map. -/
theorem irq_dispatch_map (cfg : Config) (env : Env) (st : KState) (irq : Int)
    (ctx : Nat) :
    (irq_dispatch cfg env st irq ctx).1.g_irqmap = st.g_irqmap := rfl

/-- The resolved table index is stable across dispatches of the same IRQ. -/
theorem dispatchNdx_stable (cfg : Config) (env : Env) (st : KState) (irq : Int)
    (ctx : Nat) :
    dispatchNdx cfg ((irq_dispatch cfg env st irq ctx).1) irq =
      dispatchNdx cfg st irq := by
  rw [dispatchNdx_eq, dispatchNdx_eq, irq_dispatch_map]

/-- Reaching the counter update is stable across dispatches of the same
IRQ. -/
theorem reachesCount_stable (cfg : Config) (env : Env) (st : KState)
    (irq : Int) (ctx : Nat) :
    reachesCount cfg ((irq_dispatch cfg env st irq ctx).1) irq ↔
      reachesCount cfg st irq := Iff.rfl

/-- When the dispatch reaches the counter update, the resolve phase applies
exactly `INCR_COUNT` to the vector table. -/
theorem resolvePhase_vectors_reaches (cfg : Config) (st : KState) (irq : Int)
    (hr : reachesCount cfg st irq) :
    (resolvePhase cfg st irq).vectors =
      (INCR_COUNT cfg st.g_irqvector (dispatchNdx cfg st irq)).1 := by
  by_cases hh : (st.g_irqvector (dispatchNdx cfg st irq)).handler = Xcpt.null
  · exact (resolvePhase_null_handler cfg st irq hr hh).2.2
  · exact (resolvePhase_handler cfg st irq hr hh).2.2

/-- `CALL_VECTOR` changes no counter field, hence preserves the logical
count and the representation invariant of every slot. -/
theorem CALL_VECTOR_logical (cfg : Config) (env : Env) (v : Nat → IrqSlot)
    (ndx : Nat) (vec : Xcpt) (irq : Int) (context arg : Nat) (j : Nat) :
    logicalCount cfg ((CALL_VECTOR cfg env v ndx vec irq context arg).1 j) =
      logicalCount cfg (v j) ∧
    (SlotRep (v j) →
      SlotRep ((CALL_VECTOR cfg env v ndx vec irq context arg).1 j)) := by
  obtain ⟨hc, hls, hms, _, _⟩ :=
    CALL_VECTOR_counts cfg env v ndx vec irq context arg j
  unfold logicalCount SlotRep
  rw [hc, hls, hms]
  exact ⟨rfl, fun h => h⟩

/-- Monitoring enabled: one dispatch turns the logical count of the reached
slot into its successor modulo `2 ^ 64`, preserving the representation
invariant. -/
theorem irq_dispatch_count (cfg : Config) (env : Env) (st : KState)
    (irq : Int) (ctx : Nat) (hm : cfg.irqmonitor = true)
    (hr : reachesCount cfg st irq)
    (hrep : SlotRep (st.g_irqvector (dispatchNdx cfg st irq))) :
    logicalCount cfg
        ((irq_dispatch cfg env st irq ctx).1.g_irqvector (dispatchNdx cfg st irq)) =
      (logicalCount cfg (st.g_irqvector (dispatchNdx cfg st irq)) + 1) % 2 ^ 64 ∧
    SlotRep
      ((irq_dispatch cfg env st irq ctx).1.g_irqvector (dispatchNdx cfg st irq)) := by
  have hv := resolvePhase_vectors_reaches cfg st irq hr
  have hcv := CALL_VECTOR_logical cfg env (resolvePhase cfg st irq).vectors
    (resolvePhase cfg st irq).ndx (resolvePhase cfg st irq).vector irq ctx
    (resolvePhase cfg st irq).arg (dispatchNdx cfg st irq)
  have hincr := INCR_COUNT_logical cfg st.g_irqvector (dispatchNdx cfg st irq)
    hm hrep
  constructor
  · show logicalCount cfg
        ((CALL_VECTOR cfg env (resolvePhase cfg st irq).vectors
          (resolvePhase cfg st irq).ndx (resolvePhase cfg st irq).vector irq ctx
          (resolvePhase cfg st irq).arg).1 (dispatchNdx cfg st irq)) = _
    rw [hcv.1, hv]
    exact hincr.1
  · show SlotRep
        ((CALL_VECTOR cfg env (resolvePhase cfg st irq).vectors
          (resolvePhase cfg st irq).ndx (resolvePhase cfg st irq).vector irq ctx
          (resolvePhase cfg st irq).arg).1 (dispatchNdx cfg st irq))
    apply hcv.2
    rw [hv]
    exact hincr.2

/-- Monitoring enabled: one dispatch updates the reached slot's `time` to the
maximum of its previous value and the measured delta's `tv_nsec`. -/
theorem irq_dispatch_time (cfg : Config) (env : Env) (st : KState)
    (irq : Int) (ctx : Nat) (hm : cfg.irqmonitor = true) :
    ((irq_dispatch cfg env st irq ctx).1.g_irqvector (dispatchNdx cfg st irq)).time =
      max (st.g_irqvector (dispatchNdx cfg st irq)).time
        (measuredDelta cfg env).tv_nsec := by
  have hres := (resolvePhase_vectors_fields cfg st irq (dispatchNdx cfg st irq)).2.2
  have hcv := CALL_VECTOR_time_ndx cfg env (resolvePhase cfg st irq).vectors
    (dispatchNdx cfg st irq) (resolvePhase cfg st irq).vector irq ctx
    (resolvePhase cfg st irq).arg hm
  show ((CALL_VECTOR cfg env (resolvePhase cfg st irq).vectors
      (resolvePhase cfg st irq).ndx (resolvePhase cfg st irq).vector irq ctx
      (resolvePhase cfg st irq).arg).1 (dispatchNdx cfg st irq)).time = _
  rw [show (resolvePhase cfg st irq).ndx = dispatchNdx cfg st irq from rfl]
  rw [hcv, hres]

/-- A slot's `time` never decreases across one dispatch. -/
theorem irq_dispatch_time_mono (cfg : Config) (env : Env) (st : KState)
    (irq : Int) (ctx : Nat) (j : Nat) :
    (st.g_irqvector j).time ≤
      ((irq_dispatch cfg env st irq ctx).1.g_irqvector j).time := by
  have hres := (resolvePhase_vectors_fields cfg st irq j).2.2
  have hcv := CALL_VECTOR_time_mono cfg env (resolvePhase cfg st irq).vectors
    (resolvePhase cfg st irq).ndx (resolvePhase cfg st irq).vector irq ctx
    (resolvePhase cfg st irq).arg j
  show (st.g_irqvector j).time ≤
    ((CALL_VECTOR cfg env (resolvePhase cfg st irq).vectors
      (resolvePhase cfg st irq).ndx (resolvePhase cfg st irq).vector irq ctx
      (resolvePhase cfg st irq).arg).1 j).time
  rw [← hres]
  exact hcv

end IrqDispatch

namespace IrqDispatch

/-- Iterated dispatch splits along list concatenation. -/
theorem dispatchSeq_append (cfg : Config) (l₁ l₂ : List Env) (st : KState)
    (irq : Int) (ctx : Nat) :
    dispatchSeq cfg (l₁ ++ l₂) st irq ctx =
      dispatchSeq cfg l₂ (dispatchSeq cfg l₁ st irq ctx) irq ctx :=
  List.foldl_append _ _ _ _

/-- Iterated dispatch never writes the IRQ map. -/
theorem dispatchSeq_map (cfg : Config) (envs : List Env) (st : KState)
    (irq : Int) (ctx : Nat) :
    (dispatchSeq cfg envs st irq ctx).g_irqmap = st.g_irqmap := by
  induction envs generalizing st with
  | nil => rfl
  | cons e es ih =>
      show (dispatchSeq cfg es (irq_dispatch cfg e st irq ctx).1 irq ctx).g_irqmap = _
      rw [ih]
      rfl

/-- The resolved index is stable across iterated dispatch. -/
theorem dispatchSeq_ndx (cfg : Config) (envs : List Env) (st : KState)
    (irq : Int) (ctx : Nat) :
    dispatchNdx cfg (dispatchSeq cfg envs st irq ctx) irq =
      dispatchNdx cfg st irq := by
  rw [dispatchNdx_eq, dispatchNdx_eq, dispatchSeq_map]

/-- Monitoring enabled: after a sequence of dispatches of the same IRQ, the
reached slot's `time` is the running maximum of its initial value and every
measured `tv_nsec` delta. -/
theorem dispatchSeq_time (cfg : Config) (envs : List Env) (st : KState)
    (irq : Int) (ctx : Nat) (hm : cfg.irqmonitor = true) :
    ((dispatchSeq cfg envs st irq ctx).g_irqvector (dispatchNdx cfg st irq)).time =
      (envs.map fun e => (measuredDelta cfg e).tv_nsec).foldl max
        ((st.g_irqvector (dispatchNdx cfg st irq)).time) := by
  induction envs generalizing st with
  | nil => rfl
  | cons e es ih =>
      show ((dispatchSeq cfg es (irq_dispatch cfg e st irq ctx).1 irq ctx).g_irqvector
        (dispatchNdx cfg st irq)).time = _
      rw [← dispatchNdx_stable cfg e st irq ctx, ih ((irq_dispatch cfg e st irq ctx).1),
        dispatchNdx_stable cfg e st irq ctx, irq_dispatch_time cfg e st irq ctx hm]
      rfl

/-- A slot's `time` never decreases across iterated dispatch. -/
theorem dispatchSeq_time_mono (cfg : Config) (envs : List Env) (st : KState)
    (irq : Int) (ctx : Nat) (j : Nat) :
    (st.g_irqvector j).time ≤
      ((dispatchSeq cfg envs st irq ctx).g_irqvector j).time := by
  induction envs generalizing st with
  | nil => exact le_refl _
  | cons e es ih =>
      exact le_trans (irq_dispatch_time_mono cfg e st irq ctx j)
        (ih ((irq_dispatch cfg e st irq ctx).1))

/-- Monitoring enabled and the counter update reached: after `K` dispatches
of the same IRQ the logical count has grown by exactly `K`, provided it does
not overflow 64 bits. -/
theorem dispatchSeq_count (cfg : Config) (envs : List Env) (st : KState)
    (irq : Int) (ctx : Nat) (hm : cfg.irqmonitor = true)
    (hr : reachesCount cfg st irq)
    (hrep : SlotRep (st.g_irqvector (dispatchNdx cfg st irq)))
    (hK : logicalCount cfg (st.g_irqvector (dispatchNdx cfg st irq)) +
      envs.length < 2 ^ 64) :
    logicalCount cfg
        ((dispatchSeq cfg envs st irq ctx).g_irqvector (dispatchNdx cfg st irq)) =
      logicalCount cfg (st.g_irqvector (dispatchNdx cfg st irq)) + envs.length := by
  induction envs generalizing st with
  | nil => rfl
  | cons e es ih =>
      have hstep := irq_dispatch_count cfg e st irq ctx hm hr hrep
      have hone : logicalCount cfg
          ((irq_dispatch cfg e st irq ctx).1.g_irqvector (dispatchNdx cfg st irq)) =
          logicalCount cfg (st.g_irqvector (dispatchNdx cfg st irq)) + 1 := by
        rw [hstep.1]
        have hlen : (0:Nat) < (e :: es).length := by simp
        apply Nat.mod_eq_of_lt
        have := (e :: es).length
        simp only [List.length_cons] at hK
        omega
      show logicalCount cfg
          ((dispatchSeq cfg es (irq_dispatch cfg e st irq ctx).1 irq ctx).g_irqvector
            (dispatchNdx cfg st irq)) = _
      rw [← dispatchNdx_stable cfg e st irq ctx]
      rw [ih ((irq_dispatch cfg e st irq ctx).1) ((reachesCount_stable cfg e st irq ctx).mpr hr)
        (by rw [dispatchNdx_stable]; exact hstep.2)
        (by rw [dispatchNdx_stable, hone]; simp only [List.length_cons] at hK; omega)]
      rw [dispatchNdx_stable, hone]
      simp only [List.length_cons]
      omega

/-- Two-word counter wrap: with monitoring and no wide integers, an
increment from an all-ones `lscount` clears it and carries into
`mscount`. -/
theorem INCR_COUNT_wrap (cfg : Config) (v : Nat → IrqSlot) (ndx : Nat)
    (hm : cfg.irqmonitor = true) (hll : cfg.haveLongLong = false)
    (hls : (v ndx).lscount = 2 ^ 32 - 1) (hms : (v ndx).mscount + 1 < 2 ^ 32) :
    ((INCR_COUNT cfg v ndx).1 ndx).lscount = 0 ∧
    ((INCR_COUNT cfg v ndx).1 ndx).mscount = (v ndx).mscount + 1 := by
  have hwrap : ((v ndx).lscount + 1) % 2 ^ 32 = 0 := by omega
  refine ⟨?_, ?_⟩ <;>
    simp only [INCR_COUNT, updSlot, hm, hll, if_true, Bool.false_eq_true,
      if_false, if_pos hwrap, if_pos rfl] <;> omega

/-- Two-word counter wrap across one whole dispatch. -/
theorem irq_dispatch_wrap (cfg : Config) (env : Env) (st : KState)
    (irq : Int) (ctx : Nat) (hm : cfg.irqmonitor = true)
    (hll : cfg.haveLongLong = false) (hr : reachesCount cfg st irq)
    (hls : (st.g_irqvector (dispatchNdx cfg st irq)).lscount = 2 ^ 32 - 1)
    (hms : (st.g_irqvector (dispatchNdx cfg st irq)).mscount + 1 < 2 ^ 32) :
    ((irq_dispatch cfg env st irq ctx).1.g_irqvector (dispatchNdx cfg st irq)).lscount = 0 ∧
    ((irq_dispatch cfg env st irq ctx).1.g_irqvector (dispatchNdx cfg st irq)).mscount =
      (st.g_irqvector (dispatchNdx cfg st irq)).mscount + 1 := by
  have hv := resolvePhase_vectors_reaches cfg st irq hr
  obtain ⟨_, hlsp, hmsp, _, _⟩ :=
    CALL_VECTOR_counts cfg env (resolvePhase cfg st irq).vectors
      (resolvePhase cfg st irq).ndx (resolvePhase cfg st irq).vector irq ctx
      (resolvePhase cfg st irq).arg (dispatchNdx cfg st irq)
  have hincr := INCR_COUNT_wrap cfg st.g_irqvector (dispatchNdx cfg st irq)
    hm hll hls hms
  constructor
  · show ((CALL_VECTOR cfg env (resolvePhase cfg st irq).vectors
        (resolvePhase cfg st irq).ndx (resolvePhase cfg st irq).vector irq ctx
        (resolvePhase cfg st irq).arg).1 (dispatchNdx cfg st irq)).lscount = 0
    rw [hlsp, hv]
    exact hincr.1
  · show ((CALL_VECTOR cfg env (resolvePhase cfg st irq).vectors
        (resolvePhase cfg st irq).ndx (resolvePhase cfg st irq).vector irq ctx
        (resolvePhase cfg st irq).arg).1 (dispatchNdx cfg st irq)).mscount = _
    rw [hmsp, hv]
    exact hincr.2

end IrqDispatch


namespace IrqDispatch

/-- Trace of one dispatch: resolve-phase events, then the optional entropy
tap, then the call-phase events, then the running-task write. -/
theorem irq_dispatch_tr (cfg : Config) (env : Env) (st : KState) (irq : Int)
    (ctx : Nat) :
    (irq_dispatch cfg env st irq ctx).2 =
      (resolvePhase cfg st irq).tr ++
        (if cfg.collectIrqRandomness then [Ev.entropy irq] else []) ++
        (CALL_VECTOR cfg env (resolvePhase cfg st irq).vectors
          (resolvePhase cfg st irq).ndx (resolvePhase cfg st irq).vector irq ctx
          (resolvePhase cfg st irq).arg).2 ++
        [Ev.writeRunningTask env.thisCpu env.thisTask] := rfl

/-- Call-phase events are never counter writes or entropy taps. -/
theorem CALL_VECTOR_tr_events (cfg : Config) (env : Env) (v : Nat → IrqSlot)
    (ndx : Nat) (vec : Xcpt) (irq : Int) (context arg : Nat) :
    ∀ e ∈ (CALL_VECTOR cfg env v ndx vec irq context arg).2,
      e.isCountWrite = false ∧ e.isEntropy = false := by
  intro e he
  rw [CALL_VECTOR_tr, List.mem_cons] at he
  rcases he with rfl | he
  · exact ⟨rfl, rfl⟩
  · split at he
    · split at he
      · fin_cases he <;> exact ⟨rfl, rfl⟩
      · fin_cases he; exact ⟨rfl, rfl⟩
    · cases he

/-- The call events of `CALL_VECTOR` are exactly the one call it makes. -/
theorem CALL_VECTOR_filter_call (cfg : Config) (env : Env) (v : Nat → IrqSlot)
    (ndx : Nat) (vec : Xcpt) (irq : Int) (context arg : Nat) :
    (CALL_VECTOR cfg env v ndx vec irq context arg).2.filter Ev.isCall =
      [Ev.call vec irq context arg] := by
  unfold CALL_VECTOR
  split
  · split <;> rfl
  · rfl

/-- The call events of one dispatch are exactly one call through the chosen
vector with the chosen argument. -/
theorem irq_dispatch_filter_call (cfg : Config) (env : Env) (st : KState)
    (irq : Int) (ctx : Nat) :
    (irq_dispatch cfg env st irq ctx).2.filter Ev.isCall =
      [Ev.call (resolvePhase cfg st irq).vector irq ctx
        (resolvePhase cfg st irq).arg] := by
  have h1 : (resolvePhase cfg st irq).tr.filter Ev.isCall = [] :=
    List.filter_eq_nil_iff.mpr (fun e he => by
      rw [(resolvePhase_tr_events cfg st irq e he).1]; exact Bool.false_ne_true)
  have h2 : (if cfg.collectIrqRandomness then [Ev.entropy irq]
      else ([] : List Ev)).filter Ev.isCall = [] := by
    split <;> rfl
  rw [irq_dispatch_tr]
  simp only [List.filter_append, h1, h2, CALL_VECTOR_filter_call]
  rfl

end IrqDispatch

namespace IrqDispatch

/-- A nonnegative IRQ below `2 ^ 32` is its own unsigned cast. -/
theorem uirqOf_small (irq : Int) (h0 : 0 ≤ irq) (h1 : irq < (2 : Int) ^ 32) :
    uirqOf irq = irq.toNat := by
  unfold uirqOf
  rw [Int.emod_eq_of_lt h0 h1]

/-- From the claim-level bounds `0 ≤ irq < NR_IRQS ≤ 2 ^ 32` derive the
range guard and the identity of the unsigned cast. -/
theorem inRange_of_bounds (cfg : Config) (irq : Int) (h0 : 0 ≤ irq)
    (h1 : irq < (cfg.nrIrqs : Int)) (hw : cfg.nrIrqs ≤ 2 ^ 32) :
    inRange cfg irq ∧ uirqOf irq = irq.toNat := by
  have hw' : (cfg.nrIrqs : Int) ≤ (2 : Int) ^ 32 := by exact_mod_cast hw
  have huirq := uirqOf_small irq h0 (lt_of_lt_of_le h1 hw')
  refine ⟨⟨by omega, ?_⟩, huirq⟩
  rw [huirq]
  omega

/-- C1. For every in-range IRQ that resolves (identity mapping, or
compressed mapping with an assigned map entry) to a slot holding a non-null
handler, one call to `irq_dispatch(irq, ctx)` performs exactly one call
through a vector, and that call is to the slot's handler with arguments
`(irq, ctx, slot.arg)`. -/
theorem dispatch_calls_registered_handler_once (cfg : Config) (env : Env)
    (st : KState) (irq : Int) (ctx : Nat) (h0 : 0 ≤ irq)
    (h1 : irq < (cfg.nrIrqs : Int)) (hw : cfg.nrIrqs ≤ 2 ^ 32)
    (hres : cfg.minimalVectortable = true →
      st.g_irqmap irq.toNat < cfg.nuserInterrupts)
    (hh : (st.g_irqvector (dispatchNdx cfg st irq)).handler ≠ Xcpt.null) :
    (irq_dispatch cfg env st irq ctx).2.filter Ev.isCall =
      [Ev.call (st.g_irqvector (dispatchNdx cfg st irq)).handler irq ctx
        (st.g_irqvector (dispatchNdx cfg st irq)).arg] := by
  obtain ⟨hin, huirq⟩ := inRange_of_bounds cfg irq h0 h1 hw
  have hr : reachesCount cfg st irq :=
    ⟨hin, fun hmin => by rw [huirq]; exact hres hmin⟩
  obtain ⟨hvec, harg, -⟩ := resolvePhase_handler cfg st irq hr hh
  rw [irq_dispatch_filter_call, hvec, harg]

/-- C7. Every dispatch, for every IRQ value, ends by writing the per-CPU
running-task slot with the `this_task()` value observed after the handler
(or sentinel) has returned: the new state holds that value and the write is
the last event of the trace. -/
theorem dispatch_always_updates_running_task (cfg : Config) (env : Env)
    (st : KState) (irq : Int) (ctx : Nat) :
    (irq_dispatch cfg env st irq ctx).1.g_running_tasks env.thisCpu =
      env.thisTask ∧
    ∃ l, (irq_dispatch cfg env st irq ctx).2 =
      l ++ [Ev.writeRunningTask env.thisCpu env.thisTask] := by
  constructor
  · show (if env.thisCpu = env.thisCpu then env.thisTask
      else st.g_running_tasks env.thisCpu) = env.thisTask
    rw [if_pos rfl]
  · refine ⟨(resolvePhase cfg st irq).tr ++
      (if cfg.collectIrqRandomness then [Ev.entropy irq] else []) ++
      (CALL_VECTOR cfg env (resolvePhase cfg st irq).vectors
        (resolvePhase cfg st irq).ndx (resolvePhase cfg st irq).vector irq ctx
        (resolvePhase cfg st irq).arg).2, ?_⟩
    rw [irq_dispatch_tr]

/-- In each sentinel situation, the resolve phase yields the sentinel vector
and the NULL argument. -/
theorem resolvePhase_sentinel (cfg : Config) (st : KState) (irq : Int)
    (hc : sentinelCase cfg st irq) :
    (resolvePhase cfg st irq).vector = Xcpt.unexpected ∧
    (resolvePhase cfg st irq).arg = 0 := by
  rcases hc with hin | ⟨hin, hmin, hmap⟩ | ⟨hr, hh⟩
  · rw [resolvePhase_out_of_range cfg st irq hin]
    exact ⟨rfl, rfl⟩
  · rw [resolvePhase_unmapped cfg st irq hin hmin hmap]
    exact ⟨rfl, rfl⟩
  · obtain ⟨hvec, harg, -⟩ := resolvePhase_null_handler cfg st irq hr hh
    exact ⟨hvec, harg⟩

/-- In each sentinel situation the dispatch performs exactly one call, to
the sentinel, with the NULL argument. -/
theorem irq_dispatch_sentinel_filter (cfg : Config) (env : Env)
    (st : KState) (irq : Int) (ctx : Nat) (hc : sentinelCase cfg st irq) :
    (irq_dispatch cfg env st irq ctx).2.filter Ev.isCall =
      [Ev.call Xcpt.unexpected irq ctx 0] := by
  obtain ⟨hvec, harg⟩ := resolvePhase_sentinel cfg st irq hc
  rw [irq_dispatch_filter_call, hvec, harg]

/-- C10. Whenever the dispatcher invokes the unexpected-ISR sentinel instead
of a registered handler (IRQ out of range, unassigned map entry, or NULL
handler), the call goes to the sentinel with the NULL pointer as its third
argument. -/
theorem sentinel_called_with_null_arg (cfg : Config) (env : Env)
    (st : KState) (irq : Int) (ctx : Nat) (hc : sentinelCase cfg st irq) :
    (irq_dispatch cfg env st irq ctx).2.filter Ev.isCall =
      [Ev.call Xcpt.unexpected irq ctx 0] :=
  irq_dispatch_sentinel_filter cfg env st irq ctx hc

/-- C6. An in-range, resolved IRQ whose slot holds a NULL handler dispatches
to the unexpected-ISR sentinel, and with monitoring enabled the slot's
logical invocation count still grows by one. -/
theorem null_handler_sentinel_still_counted (cfg : Config) (env : Env)
    (st : KState) (irq : Int) (ctx : Nat) (h0 : 0 ≤ irq)
    (h1 : irq < (cfg.nrIrqs : Int)) (hw : cfg.nrIrqs ≤ 2 ^ 32)
    (hres : cfg.minimalVectortable = true →
      st.g_irqmap irq.toNat < cfg.nuserInterrupts)
    (hh : (st.g_irqvector (dispatchNdx cfg st irq)).handler = Xcpt.null) :
    (irq_dispatch cfg env st irq ctx).2.filter Ev.isCall =
      [Ev.call Xcpt.unexpected irq ctx 0] ∧
    (cfg.irqmonitor = true →
      SlotRep (st.g_irqvector (dispatchNdx cfg st irq)) →
      logicalCount cfg (st.g_irqvector (dispatchNdx cfg st irq)) + 1 < 2 ^ 64 →
      logicalCount cfg
          ((irq_dispatch cfg env st irq ctx).1.g_irqvector
            (dispatchNdx cfg st irq)) =
        logicalCount cfg (st.g_irqvector (dispatchNdx cfg st irq)) + 1) := by
  obtain ⟨hin, huirq⟩ := inRange_of_bounds cfg irq h0 h1 hw
  have hr : reachesCount cfg st irq :=
    ⟨hin, fun hmin => by rw [huirq]; exact hres hmin⟩
  constructor
  · exact irq_dispatch_sentinel_filter cfg env st irq ctx (Or.inr (Or.inr ⟨hr, hh⟩))
  · intro hm hrep hov
    rw [(irq_dispatch_count cfg env st irq ctx hm hr hrep).1]
    exact Nat.mod_eq_of_lt hov

end IrqDispatch

namespace IrqDispatch

/-- C8. In every dispatch that performs a counter update, the counter write
strictly precedes the call through the vector: the trace splits into a
prefix containing the counter write (and no call) and a suffix containing
the call (and no counter write). -/
theorem count_write_precedes_handler_call (cfg : Config) (env : Env)
    (st : KState) (irq : Int) (ctx : Nat) (hm : cfg.irqmonitor = true)
    (hr : reachesCount cfg st irq) :
    ∃ l₁ l₂, (irq_dispatch cfg env st irq ctx).2 = l₁ ++ l₂ ∧
      Ev.writeCount (dispatchNdx cfg st irq) ∈ l₁ ∧
      (∃ v a, Ev.call v irq ctx a ∈ l₂) ∧
      (∀ e ∈ l₁, e.isCall = false) ∧
      (∀ e ∈ l₂, e.isCountWrite = false) := by
  obtain ⟨reads, hreads, hreadsP⟩ := resolvePhase_tr_reaches cfg st irq hr
  have hwc : Ev.writeCount (dispatchNdx cfg st irq) ∈
      (resolvePhase cfg st irq).tr := by
    rw [hreads, INCR_COUNT_tr, hm]
    simp
  refine ⟨(resolvePhase cfg st irq).tr ++
      (if cfg.collectIrqRandomness then [Ev.entropy irq] else []),
    (CALL_VECTOR cfg env (resolvePhase cfg st irq).vectors
      (resolvePhase cfg st irq).ndx (resolvePhase cfg st irq).vector irq ctx
      (resolvePhase cfg st irq).arg).2 ++
      [Ev.writeRunningTask env.thisCpu env.thisTask], ?_, ?_, ?_, ?_, ?_⟩
  · rw [irq_dispatch_tr]
    simp [List.append_assoc]
  · exact List.mem_append.mpr (Or.inl hwc)
  · refine ⟨(resolvePhase cfg st irq).vector, (resolvePhase cfg st irq).arg, ?_⟩
    refine List.mem_append.mpr (Or.inl ?_)
    rw [CALL_VECTOR_tr]
    exact List.mem_cons_self _ _
  · intro e he
    rcases List.mem_append.mp he with he | he
    · exact (resolvePhase_tr_events cfg st irq e he).1
    · split at he
      · fin_cases he; rfl
      · cases he
  · intro e he
    rcases List.mem_append.mp he with he | he
    · exact (CALL_VECTOR_tr_events cfg env _ _ _ irq ctx _ e he).1
    · fin_cases he; rfl

/-- C9. With entropy collection enabled, every dispatch taps the entropy
pool exactly once, with the raw IRQ number, and does so before the call
through the vector. -/
theorem entropy_once_before_call (cfg : Config) (env : Env) (st : KState)
    (irq : Int) (ctx : Nat) (hent : cfg.collectIrqRandomness = true) :
    ∃ l₁ l₂, (irq_dispatch cfg env st irq ctx).2 = l₁ ++ Ev.entropy irq :: l₂ ∧
      (∀ e ∈ l₁, e.isEntropy = false ∧ e.isCall = false) ∧
      (∀ e ∈ l₂, e.isEntropy = false) ∧
      (∃ v a, Ev.call v irq ctx a ∈ l₂) := by
  refine ⟨(resolvePhase cfg st irq).tr,
    (CALL_VECTOR cfg env (resolvePhase cfg st irq).vectors
      (resolvePhase cfg st irq).ndx (resolvePhase cfg st irq).vector irq ctx
      (resolvePhase cfg st irq).arg).2 ++
      [Ev.writeRunningTask env.thisCpu env.thisTask], ?_, ?_, ?_, ?_⟩
  · rw [irq_dispatch_tr, if_pos hent]
    simp
  · intro e he
    have h := resolvePhase_tr_events cfg st irq e he
    exact ⟨h.2.1, h.1⟩
  · intro e he
    rcases List.mem_append.mp he with he | he
    · exact (CALL_VECTOR_tr_events cfg env _ _ _ irq ctx _ e he).2
    · fin_cases he; rfl
  · refine ⟨(resolvePhase cfg st irq).vector, (resolvePhase cfg st irq).arg, ?_⟩
    refine List.mem_append.mpr (Or.inl ?_)
    rw [CALL_VECTOR_tr]
    exact List.mem_cons_self _ _

/-- C4. With monitoring enabled, a sequence of `K` dispatches that reach the
counter update of the same slot adds exactly `K` to its logical 64-bit count
(when it does not overflow), in both representations; and in the two-word
representation one dispatch from an all-ones `lscount` clears `lscount` and
carries one into `mscount`. -/
theorem count_adds_K_with_two_word_wrap (cfg : Config) (envs : List Env)
    (env : Env) (st : KState) (irq : Int) (ctx : Nat)
    (hm : cfg.irqmonitor = true) (hr : reachesCount cfg st irq) :
    (SlotRep (st.g_irqvector (dispatchNdx cfg st irq)) →
      logicalCount cfg (st.g_irqvector (dispatchNdx cfg st irq)) +
        envs.length < 2 ^ 64 →
      logicalCount cfg
          ((dispatchSeq cfg envs st irq ctx).g_irqvector (dispatchNdx cfg st irq)) =
        logicalCount cfg (st.g_irqvector (dispatchNdx cfg st irq)) +
          envs.length) ∧
    (cfg.haveLongLong = false →
      (st.g_irqvector (dispatchNdx cfg st irq)).lscount = 2 ^ 32 - 1 →
      (st.g_irqvector (dispatchNdx cfg st irq)).mscount + 1 < 2 ^ 32 →
      ((irq_dispatch cfg env st irq ctx).1.g_irqvector
        (dispatchNdx cfg st irq)).lscount = 0 ∧
      ((irq_dispatch cfg env st irq ctx).1.g_irqvector
        (dispatchNdx cfg st irq)).mscount =
        (st.g_irqvector (dispatchNdx cfg st irq)).mscount + 1) :=
  ⟨fun hrep hK => dispatchSeq_count cfg envs st irq ctx hm hr hrep hK,
   fun hll hls hms => irq_dispatch_wrap cfg env st irq ctx hm hll hr hls hms⟩

/-- C5. With monitoring enabled, across any sequence of dispatches of the
same IRQ the reached slot's `time` is monotonically non-decreasing, and at
the end equals the maximum of its initial value and every observed `tv_nsec`
delta component. -/
theorem time_is_running_max_and_monotone (cfg : Config) (envs : List Env)
    (st : KState) (irq : Int) (ctx : Nat) (hm : cfg.irqmonitor = true) :
    ((dispatchSeq cfg envs st irq ctx).g_irqvector (dispatchNdx cfg st irq)).time =
      (envs.map fun e => (measuredDelta cfg e).tv_nsec).foldl max
        ((st.g_irqvector (dispatchNdx cfg st irq)).time) ∧
    ∀ k, ((dispatchSeq cfg (envs.take k) st irq ctx).g_irqvector
        (dispatchNdx cfg st irq)).time ≤
      ((dispatchSeq cfg (envs.take (k + 1)) st irq ctx).g_irqvector
        (dispatchNdx cfg st irq)).time := by
  constructor
  · exact dispatchSeq_time cfg envs st irq ctx hm
  · intro k
    rw [List.take_succ, dispatchSeq_append]
    cases envs[k]? with
    | none => exact le_refl _
    | some e => exact irq_dispatch_time_mono cfg e _ irq ctx _

end IrqDispatch

namespace IrqDispatch

/-- C2. Bug evidence: with monitoring enabled, dispatching the out-of-range
IRQ 42 (`NR_IRQS = 16`) still reads the `time` field at index 42 and writes
it, even though the spec promises no accounting for out-of-range IRQs; in C
this is an out-of-bounds access of `g_irqvector`. The counter is indeed
untouched and the sentinel is invoked. -/
theorem out_of_range_dispatch_accesses_time :
    ¬ inRange cfgOut 42 ∧ cfgOut.irqmonitor = true ∧
    (irq_dispatch cfgOut envW100 stW 42 0).2.filter Ev.isCall =
      [Ev.call Xcpt.unexpected 42 0 0] ∧
    (irq_dispatch cfgOut envW100 stW 42 0).2.filter Ev.isCountWrite = [] ∧
    Ev.readTime 42 ∈ (irq_dispatch cfgOut envW100 stW 42 0).2 ∧
    Ev.writeTime 42 ∈ (irq_dispatch cfgOut envW100 stW 42 0).2 ∧
    (stW.g_irqvector 42).time = 0 ∧
    ((irq_dispatch cfgOut envW100 stW 42 0).1.g_irqvector 42).time = 100 := by
  decide

/-- C3. Bug evidence: in compressed mode, dispatching IRQ 8 whose map entry
equals `NUSER_INTERRUPTS = 8` (unassigned) invokes the sentinel and leaves
every handler, argument and counter alone, but still reads the `time` field
at index 8 and writes it; in C this is an out-of-bounds access of
`g_irqvector`. -/
theorem unmapped_dispatch_accesses_time :
    cfgMin.minimalVectortable = true ∧ cfgMin.irqmonitor = true ∧
    stMin.g_irqmap (uirqOf 8) = cfgMin.nuserInterrupts ∧
    (irq_dispatch cfgMin envW100 stMin 8 0).2.filter Ev.isCall =
      [Ev.call Xcpt.unexpected 8 0 0] ∧
    (irq_dispatch cfgMin envW100 stMin 8 0).2.filter Ev.isCountWrite = [] ∧
    Ev.readTime 8 ∈ (irq_dispatch cfgMin envW100 stMin 8 0).2 ∧
    Ev.writeTime 8 ∈ (irq_dispatch cfgMin envW100 stMin 8 0).2 ∧
    ((irq_dispatch cfgMin envW100 stMin 8 0).1.g_irqvector 8).time = 100 := by
  decide

/-- Witness for C1 at `irq = 5`, `ctx = 77` in the exemplar state. -/
theorem dispatch_calls_registered_handler_once_witness :
    (irq_dispatch cfgW envW stW 5 77).2.filter Ev.isCall =
      [Ev.call (Xcpt.user 1) 5 77 42] := by
  have h := dispatch_calls_registered_handler_once cfgW envW stW 5 77
    (by decide) (by decide) (by decide) (by decide) (by decide)
  exact h

end IrqDispatch

namespace IrqDispatch

/-- Witness for C4: two dispatches in the two-word representation carry the
counter from `2 ^ 32 - 1` to `2 ^ 32 + 1`, and one dispatch wraps
`(lscount, mscount)` from `(2 ^ 32 - 1, 0)` to `(0, 1)`. -/
theorem count_adds_K_with_two_word_wrap_witness :
    logicalCount cfgW2
        ((dispatchSeq cfgW2 [envW, envW100] stW2 5 0).g_irqvector
          (dispatchNdx cfgW2 stW2 5)) = 4294967297 ∧
    ((irq_dispatch cfgW2 envW stW2 5 0).1.g_irqvector
      (dispatchNdx cfgW2 stW2 5)).lscount = 0 ∧
    ((irq_dispatch cfgW2 envW stW2 5 0).1.g_irqvector
      (dispatchNdx cfgW2 stW2 5)).mscount = 1 := by
  have h := count_adds_K_with_two_word_wrap cfgW2 [envW, envW100] envW stW2 5 0
    (by decide) (by decide)
  have ha := h.1 (by decide) (by decide)
  have hb := h.2 (by decide) (by decide) (by decide)
  exact ⟨ha.trans (by decide), hb.1, hb.2.trans (by decide)⟩

/-- Witness for C5: deltas 250 then 100 leave `time = 250`, and the first
step is non-decreasing. -/
theorem time_is_running_max_and_monotone_witness :
    ((dispatchSeq cfgW [envW, envW100] stW 5 77).g_irqvector
      (dispatchNdx cfgW stW 5)).time = 250 ∧
    ((dispatchSeq cfgW (List.take 0 [envW, envW100]) stW 5 77).g_irqvector
      (dispatchNdx cfgW stW 5)).time ≤
      ((dispatchSeq cfgW (List.take 1 [envW, envW100]) stW 5 77).g_irqvector
        (dispatchNdx cfgW stW 5)).time := by
  have h := time_is_running_max_and_monotone cfgW [envW, envW100] stW 5 77
    (by decide)
  exact ⟨h.1.trans (by decide), h.2 0⟩

/-- Witness for C6: IRQ 3 has no handler; the sentinel is called with a NULL
argument and slot 3's count becomes 1. -/
theorem null_handler_sentinel_still_counted_witness :
    (irq_dispatch cfgW envW stW 3 9).2.filter Ev.isCall =
      [Ev.call Xcpt.unexpected 3 9 0] ∧
    logicalCount cfgW
        ((irq_dispatch cfgW envW stW 3 9).1.g_irqvector
          (dispatchNdx cfgW stW 3)) = 1 := by
  have h := null_handler_sentinel_still_counted cfgW envW stW 3 9
    (by decide) (by decide) (by decide) (by decide) (by decide)
  exact ⟨h.1, (h.2 (by decide) (by decide) (by decide)).trans (by decide)⟩

/-- Witness for C8 at `irq = 5`, `ctx = 77` in the exemplar state. -/
theorem count_write_precedes_handler_call_witness :
    ∃ l₁ l₂, (irq_dispatch cfgW envW stW 5 77).2 = l₁ ++ l₂ ∧
      Ev.writeCount (dispatchNdx cfgW stW 5) ∈ l₁ ∧
      (∃ v a, Ev.call v 5 77 a ∈ l₂) ∧
      (∀ e ∈ l₁, e.isCall = false) ∧
      (∀ e ∈ l₂, e.isCountWrite = false) :=
  count_write_precedes_handler_call cfgW envW stW 5 77 (by decide) (by decide)

/-- Witness for C9 at `irq = 9` in the exemplar state. -/
theorem entropy_once_before_call_witness :
    ∃ l₁ l₂, (irq_dispatch cfgW envW stW 9 4).2 = l₁ ++ Ev.entropy 9 :: l₂ ∧
      (∀ e ∈ l₁, e.isEntropy = false ∧ e.isCall = false) ∧
      (∀ e ∈ l₂, e.isEntropy = false) ∧
      (∃ v a, Ev.call v 9 4 a ∈ l₂) :=
  entropy_once_before_call cfgW envW stW 9 4 (by decide)

/-- Witness for C10: the out-of-range IRQ 42 routes to the sentinel with a
NULL third argument. -/
theorem sentinel_called_with_null_arg_witness :
    (irq_dispatch cfgW envW stW 42 0).2.filter Ev.isCall =
      [Ev.call Xcpt.unexpected 42 0 0] :=
  sentinel_called_with_null_arg cfgW envW stW 42 0 (by decide)

end IrqDispatch
